import Mathlib

/-!
Verification of the extension-build configuration scripts (`setup.py`
fragments): the extension-list filter/reorder (`remove_disabled`), source
directory setup (`set_srcdir`), compiler-flag augmentation
(`set_compiler_flags`), directory-list insertion (`add_dir_to_list`), the
macOS SDK root resolver (`macosx_sdk_root`), the header/library search
(`find_file`) and the inverse directory lookup (`find_library_file`
fragment).

Strings are modelled as `List Char` (`Str`).  External collaborators —
the filesystem (`os.path.exists`, `os.path.isdir`), the platform flag
`MACOS`, the predicate `is_macosx_sdk_path` (defined outside these
sources) and the compiler probe `_osx_support._default_sysroot` — are
abstract parameters of the embedding; the `os.path` / `posixpath` string
algorithms (`join`, `normpath`, `abspath`, `dirname`) and the
`-isysroot` regex search are modelled concretely.

The file is organised as definitions first, then theorems.
-/

namespace SetupPy

/-! ## Definitions: shared path and string primitives -/

/-- Strings, modelled as lists of characters. -/
abbrev Str := List Char

/-- `posixpath.join(a, b)` for two components: if `b` is absolute it wins;
otherwise it is appended, inserting a `/` unless `a` is empty or already
ends with `/`. -/
def pathJoin (a b : Str) : Str :=
  if b.head? = some '/' then b
  else if a = [] ∨ a.getLast? = some '/' then a ++ b
  else a ++ '/' :: b

/-- `os.path.isabs`: a POSIX path is absolute when it starts with `/`. -/
def isAbs (p : Str) : Bool := p.head? = some '/'

/-- `s.rstrip(c)`: drop trailing occurrences of the character `c`. -/
def rstripChar (c : Char) (l : Str) : Str :=
  (l.reverse.dropWhile (fun x => x = c)).reverse

/-- Python `str.split(sep)` for a one-character separator. -/
def splitOnChar (sep : Char) : Str → List Str
  | [] => [[]]
  | c :: cs =>
    match splitOnChar sep cs with
    | [] => [[c]]
    | h :: t => if c = sep then [] :: h :: t else (c :: h) :: t

/-- The number of leading slashes `posixpath.normpath` preserves: two for
exactly-double leading slashes (POSIX gives them a special meaning), one
for any other absolute path, zero otherwise. -/
def initialSlashes (path : Str) : Nat :=
  if path.take 1 = ['/'] then
    if path.take 2 = ['/', '/'] ∧ ¬ (path.take 3 = ['/', '/', '/']) then 2
    else 1
  else 0

/-- The component pass of `posixpath.normpath`: drop empty and `.`
components; `..` cancels a previous real component, is kept after
another `..` or at the start of a relative path, and is dropped at the
root. -/
def normComps (initSlashes : Nat) (comps : List Str) : List Str :=
  comps.foldl (fun acc comp =>
    if comp = [] ∨ comp = ['.'] then acc
    else if comp ≠ ['.', '.'] ∨ (initSlashes = 0 ∧ acc = [])
        ∨ acc.getLast? = some ['.', '.'] then acc ++ [comp]
    else if acc ≠ [] then acc.dropLast
    else acc) []

/-- `posixpath.normpath`. -/
def normpath (path : Str) : Str :=
  if path = [] then ['.']
  else
    let res := List.replicate (initialSlashes path) '/'
      ++ List.intercalate ['/']
          (normComps (initialSlashes path) (splitOnChar '/' path))
    if res = [] then ['.'] else res

/-- `posixpath.abspath`, with the working directory `cwd` passed
explicitly: a relative path is joined onto `cwd`, and the result is
normalised. -/
def abspath (cwd path : Str) : Str :=
  normpath (if isAbs path then path else pathJoin cwd path)

/-- The index of the last `/` in a path, if any. -/
def rfindSlashIdx : Str → Option Nat
  | [] => none
  | c :: cs =>
    match rfindSlashIdx cs with
    | some i => some (i + 1)
    | none => if c = '/' then some 0 else none

/-- `posixpath.dirname`: everything up to and including the final `/`;
when that head is nonempty and not all slashes, trailing slashes are
stripped. -/
def dirnameOf (p : Str) : Str :=
  let i := match rfindSlashIdx p with
    | some j => j + 1
    | none => 0
  let head := p.take i
  if !(head.isEmpty) && head.any (fun c => !(c == '/')) then
    rstripChar '/' head
  else head

/-! ## Definitions: extension descriptors and `PyBuildExt.remove_disabled` -/

/-- An extension-build descriptor: a name plus its source files (the other
descriptor fields play no role in the routines verified here). -/
structure Extension where
  name : Str
  sources : List Str
deriving DecidableEq, Repr

/-- The name `"_ctypes"` of the dependency-bearing module. -/
def ctypesName : Str := ['_', 'c', 't', 'y', 'p', 'e', 's']

/-- The index that `dict((ext.name, i) for i, ext in enumerate(extensions))`
associates to `nm`: the index of the LAST descriptor named `nm` (later
dict entries overwrite earlier ones), or `none` when no descriptor has
that name. -/
def extMapIdx (nm : Str) : List Extension → Option Nat
  | [] => none
  | e :: es =>
    match extMapIdx nm es with
    | some i => some (i + 1)
    | none => if e.name = nm then some 0 else none

/-- The disabled-list filter of `remove_disabled`:
`[ext for ext in self.extensions if ext.name not in DISABLED_MODULE_LIST]`. -/
def filteredExtensions (disabled : List Str) (exts : List Extension) : List Extension :=
  exts.filter (fun e => ¬ disabled.contains e.name)

/-- `PyBuildExt.remove_disabled`: filter out extensions on the disabled
list, then — when a descriptor named `"_ctypes"` is present — pop the one
the name-to-index dict designates and append it at the end. -/
def remove_disabled (disabled : List Str) (exts : List Extension) : List Extension :=
  let extensions := filteredExtensions disabled exts
  match extMapIdx ctypesName extensions with
  | some i => extensions.eraseIdx i ++ (extensions[i]?).toList
  | none => extensions

/-! ## Definitions: `set_compiler_flags` and `add_dir_to_list` -/

/-- The configuration-variable store (`sysconfig.get_config_vars()`): a
map from variable names to optional values; `sysconfig.get_config_var`
yields `None` for a missing variable. -/
def ConfigStore := Str → Option Str

/-- `set_compiler_flags(compiler_flags, compiler_py_flags_nodist)`: read
both variables, concatenate them with a single space, and write the
result back into the store under the first name.  When either variable is
missing (`None`), the Python concatenation `flags + ' ' + py_flags_nodist`
raises `TypeError`; that failure is the `none` result. -/
def set_compiler_flags (store : ConfigStore)
    (compiler_flags compiler_py_flags_nodist : Str) : Option ConfigStore :=
  match store compiler_flags, store compiler_py_flags_nodist with
  | some flags, some py_flags_nodist =>
      some (fun name => if name = compiler_flags
        then some (flags ++ ' ' :: py_flags_nodist)
        else store name)
  | _, _ => none

/-- Python `list.insert(n, x)` for an index `n ≤ len(l)`. -/
def listInsert {α : Type} (l : List α) (n : Nat) (x : α) : List α :=
  l.take n ++ x :: l.drop n

/-- `add_dir_to_list(dirlist, dir)`, returning the updated list.
`os.path.isdir` is the abstract filesystem predicate `isdir`.  The
directory is skipped when it is `None`, not an existing directory, or
already present; otherwise it is inserted after the first relative entry,
or at index 0 when every entry is absolute. -/
def add_dir_to_list (isdir : Str → Bool) (dirlist : List Str)
    (dir : Option Str) : List Str :=
  match dir with
  | none => dirlist
  | some d =>
    if isdir d = false ∨ d ∈ dirlist then dirlist
    else
      match dirlist.findIdx? (fun path => !(isAbs path)) with
      | some i => listInsert dirlist (i + 1) d
      | none => listInsert dirlist 0 d

/-! ## Definitions: `macosx_sdk_root` -/

/-- Python's ASCII whitespace class `\s`. -/
def isPySpace (c : Char) : Bool :=
  c == ' ' || c == '\t' || c == '\n' || c == '\r' || c == '\x0b' || c == '\x0c'

/-- The nine-character literal head of the regex `-isysroot\s*(\S+)`. -/
def isysrootLit : Str := ['-', 'i', 's', 'y', 's', 'r', 'o', 'o', 't']

/-- One attempt of the regex `-isysroot\s*(\S+)` anchored at the head of
`s`: the nine-character literal, greedily skipped whitespace, then the
captured group — a maximal nonempty run of non-whitespace characters. -/
def matchIsysrootAt (s : Str) : Option Str :=
  if s.take 9 = isysrootLit then
    let tok := ((s.drop 9).dropWhile isPySpace).takeWhile (fun c => !(isPySpace c))
    if tok = [] then none else some tok
  else none

/-- `re.search(r'-isysroot\s*(\S+)', cflags)`: the captured group at the
leftmost position where the whole pattern matches. -/
def searchIsysroot : Str → Option Str
  | [] => none
  | c :: cs =>
    match matchIsysrootAt (c :: cs) with
    | some tok => some tok
    | none => searchIsysroot cs

/-- The module-level cache written by `macosx_sdk_root`: the globals
`MACOS_SDK_ROOT` and `MACOS_SDK_SPECIFIED`, both initialised to `None`. -/
structure SdkState where
  MACOS_SDK_ROOT : Option Str
  MACOS_SDK_SPECIFIED : Option Bool
deriving DecidableEq, Repr

/-- Python truthiness of an optional string: `None` and `''` are falsy. -/
def truthyStr : Option Str → Bool
  | none => false
  | some s => !(s.isEmpty)

/-- The external configuration read by `macosx_sdk_root`: the `CFLAGS`
configuration variable, and the root that the compiler probe
`_osx_support._default_sysroot(CC)` would report. -/
structure SdkEnv where
  CFLAGS : Str
  default_sysroot : Str
deriving DecidableEq, Repr

/-- `macosx_sdk_root()`: returns the root, the updated globals, and a flag
recording whether the compiler-probing fallback ran.  A cached truthy
root is returned unchanged; otherwise an `-isysroot` match in `CFLAGS`
supplies the root with `MACOS_SDK_SPECIFIED = (root != '/')`, and only
failing that is the compiler invoked, with the SDK marked not
explicitly specified. -/
def macosx_sdk_root (env : SdkEnv) (st : SdkState) : Str × SdkState × Bool :=
  if truthyStr st.MACOS_SDK_ROOT then (st.MACOS_SDK_ROOT.getD [], st, false)
  else
    match searchIsysroot env.CFLAGS with
    | some tok => (tok, ⟨some tok, some (decide (tok ≠ ['/']))⟩, false)
    | none =>
      (env.default_sysroot, ⟨some env.default_sysroot, some false⟩, true)

/-! ## Definitions: `find_file` and the `find_library_file` inverse lookup -/

/-- The environment of the file searches: the `MACOS` platform flag, the
resolved SDK `sysroot` (from `macosx_sdk_root()`), the externally
defined predicate `is_macosx_sdk_path`, and the filesystem probe
`os.path.exists`. -/
structure FsEnv where
  macos : Bool
  sysroot : Str
  is_macosx_sdk_path : Str → Bool
  pathExists : Str → Bool

/-- The probe path that `find_file` tests for a candidate directory:
`os.path.join(dir, filename)`, replaced by
`os.path.join(sysroot, dir[1:], filename)` when, on macOS, the directory
is recognised as an SDK path. -/
def fileProbe (env : FsEnv) (filename dir : Str) : Str :=
  let f := pathJoin dir filename
  if env.macos && env.is_macosx_sdk_path dir then
    pathJoin (pathJoin env.sysroot (dir.drop 1)) filename
  else f

/-- `find_file(filename, std_dirs, paths)`: `[]` as soon as some standard
directory holds the file, else `[dir]` for the first additional directory
holding it, else `None` (the function falls off its end). -/
def find_file (env : FsEnv) (filename : Str) (std_dirs paths : List Str) :
    Option (List Str) :=
  if std_dirs.any (fun dir => env.pathExists (fileProbe env filename dir)) then
    some []
  else
    match paths.find? (fun dir => env.pathExists (fileProbe env filename dir)) with
    | some dir => some [dir]
    | none => none

/-- One iteration of the directory loops of the `find_library_file`
fragment: the candidate entry `p` is stripped of trailing separators and
matches when (on macOS, for an SDK path) `join(sysroot, p[1:])` equals
the file's directory, or when the stripped `p` itself equals it. -/
def dirMatches (env : FsEnv) (dirname p : Str) : Bool :=
  let p := rstripChar '/' p
  (env.macos && env.is_macosx_sdk_path p
    && (pathJoin env.sysroot (p.drop 1) == dirname))
  || (p == dirname)

/-- The `find_library_file` fragment: take the directory of the resolved
path `result`; return `[]` when it lies in a standard directory, `[p]`
(with `p` stripped of trailing separators) for the first matching
additional directory, and — when neither list matches — fall through to
`assert False`, modelled as `none`. -/
def find_library_file_lookup (env : FsEnv) (result : Str)
    (std_dirs paths : List Str) : Option (List Str) :=
  if std_dirs.any (fun p => dirMatches env (dirnameOf result) p) then some []
  else
    match paths.find? (fun p => dirMatches env (dirnameOf result) p) with
    | some p => some [rstripChar '/' p]
    | none => none

/-! ## Definitions: `PyBuildExt.set_srcdir` -/

/-- The `PyBuildExt` state touched by `set_srcdir`: the `srcdir`
attribute, initialised to `None` in `__init__`. -/
structure BuildState where
  srcdir : Option Str
deriving DecidableEq, Repr

/-- The message of the `ValueError` raised by `set_srcdir`. -/
def noSrcdirError : Str := "No source directory; cannot proceed.".toList

/-- `PyBuildExt.set_srcdir`: store `sysconfig.get_config_var('srcdir')`
into the attribute; when it is falsy (`None` or empty) raise the
`ValueError`, otherwise replace it by its absolute form.  The result is
the raised error, if any, paired with the state after the call. -/
def set_srcdir (cwd : Str) (srcdir_var : Option Str) (st : BuildState) :
    Option Str × BuildState :=
  let st1 : BuildState := { st with srcdir := srcdir_var }
  if truthyStr st1.srcdir then
    (none, { st1 with srcdir := some (abspath cwd (srcdir_var.getD [])) })
  else (some noSrcdirError, st1)

/-! ## Theorems: facts about `extMapIdx` and `remove_disabled` -/

theorem extMapIdx_none_iff (nm : Str) (l : List Extension) :
    extMapIdx nm l = none ↔ ∀ e ∈ l, e.name ≠ nm := by
  induction l with
  | nil => simp [extMapIdx]
  | cons e es ih =>
    simp only [extMapIdx]
    cases h : extMapIdx nm es with
    | some i =>
      simp only [reduceCtorEq, false_iff]
      intro hall
      have : extMapIdx nm es = none := ih.mpr (fun x hx => hall x (List.mem_cons_of_mem _ hx))
      rw [h] at this; exact absurd this (by simp)
    | none =>
      have hes := ih.mp h
      constructor
      · intro hif x hx
        rcases List.mem_cons.mp hx with rfl | hmem
        · intro hname
          rw [if_pos hname] at hif
          exact absurd hif (by simp)
        · exact hes x hmem
      · intro hall
        rw [if_neg (hall e (List.mem_cons_self e es))]

theorem extMapIdx_some (nm : Str) (l : List Extension) (i : Nat)
    (h : extMapIdx nm l = some i) :
    ∃ hi : i < l.length, (l.get ⟨i, hi⟩).name = nm := by
  induction l generalizing i with
  | nil => simp [extMapIdx] at h
  | cons e es ih =>
    simp only [extMapIdx] at h
    cases hes : extMapIdx nm es with
    | some j =>
      rw [hes] at h
      cases h
      obtain ⟨hj, hname⟩ := ih j hes
      exact ⟨Nat.succ_lt_succ hj, hname⟩
    | none =>
      rw [hes] at h
      by_cases hname : e.name = nm
      · rw [if_pos hname] at h
        cases h
        exact ⟨Nat.succ_pos _, hname⟩
      · rw [if_neg hname] at h
        exact absurd h (by simp)

theorem extMapIdx_some_getElem (nm : Str) (l : List Extension) (i : Nat)
    (h : extMapIdx nm l = some i) :
    ∃ x, l[i]? = some x ∧ x.name = nm := by
  obtain ⟨hi, hname⟩ := extMapIdx_some nm l i h
  exact ⟨l.get ⟨i, hi⟩, by simp [List.getElem?_eq_some_iff, hi], hname⟩

theorem remove_disabled_of_none (disabled : List Str) (exts : List Extension)
    (h : extMapIdx ctypesName (filteredExtensions disabled exts) = none) :
    remove_disabled disabled exts = filteredExtensions disabled exts := by
  simp only [remove_disabled, h]

theorem remove_disabled_of_some (disabled : List Str) (exts : List Extension)
    (i : Nat) (x : Extension)
    (h : extMapIdx ctypesName (filteredExtensions disabled exts) = some i)
    (hx : (filteredExtensions disabled exts)[i]? = some x) :
    remove_disabled disabled exts
      = (filteredExtensions disabled exts).eraseIdx i ++ [x] := by
  simp only [remove_disabled, h, hx, Option.toList_some]

theorem eraseIdx_append_singleton_perm {α : Type} (l : List α) (i : Nat) (x : α)
    (hx : l[i]? = some x) : (l.eraseIdx i ++ [x]).Perm l := by
  obtain ⟨hi, hget⟩ := List.getElem?_eq_some_iff.mp hx
  subst hget
  refine (List.perm_append_singleton _ _).trans ?_
  rw [List.eraseIdx_eq_take_drop_succ]
  have h2 : (l[i] :: (l.take i ++ l.drop (i + 1))).Perm
      (l.take i ++ l[i] :: l.drop (i + 1)) := List.perm_middle.symm
  have h3 : l.take i ++ l[i] :: l.drop (i + 1) = l := by
    rw [← List.drop_eq_getElem_cons hi, List.take_append_drop]
  conv_rhs => rw [← h3]
  exact h2

theorem filter_eraseIdx_append_singleton {α : Type} (l : List α) (i : Nat) (x : α)
    (p : α → Bool) (hx : l[i]? = some x) (hpx : p x = false) :
    (l.eraseIdx i ++ [x]).filter p = l.filter p := by
  obtain ⟨hi, hget⟩ := List.getElem?_eq_some_iff.mp hx
  subst hget
  have hl : l.take i ++ l[i] :: l.drop (i + 1) = l := by
    rw [← List.drop_eq_getElem_cons hi, List.take_append_drop]
  have hsingle : List.filter p [l[i]] = [] := by
    rw [List.filter_cons, hpx]
    simp
  have hcons : List.filter p (l[i] :: l.drop (i + 1))
      = List.filter p (l.drop (i + 1)) := by
    rw [List.filter_cons, hpx]
    simp
  conv_rhs => rw [← hl]
  rw [List.eraseIdx_eq_take_drop_succ, List.filter_append, List.filter_append,
    List.filter_append, hsingle, hcons, List.append_nil]

theorem remove_disabled_perm (disabled : List Str) (exts : List Extension) :
    (remove_disabled disabled exts).Perm (filteredExtensions disabled exts) := by
  cases h : extMapIdx ctypesName (filteredExtensions disabled exts) with
  | none => rw [remove_disabled_of_none disabled exts h]
  | some i =>
    obtain ⟨x, hx, _⟩ := extMapIdx_some_getElem _ _ i h
    rw [remove_disabled_of_some disabled exts i x h hx]
    exact eraseIdx_append_singleton_perm _ i x hx

theorem mem_filteredExtensions (disabled : List Str) (exts : List Extension)
    (e : Extension) (he : e ∈ filteredExtensions disabled exts) :
    e.name ∉ disabled := by
  have h := (List.mem_filter.mp he).2
  simp only [Bool.not_eq_eq_eq_not, Bool.not_true] at h
  intro hmem
  rw [List.contains_iff_exists_mem_beq.mpr ⟨e.name, hmem, by simp⟩] at h
  exact absurd h (by simp)

/-- **C1**: for every extension collection and disabled-name set,
`remove_disabled` produces a collection that (a) contains no descriptor
whose name is in the disabled set, (b) consists exactly of the surviving
descriptors, (c) preserves the relative order of the descriptors not named
`"_ctypes"`, (d) places a descriptor named `"_ctypes"` last whenever the
filtered collection has one, and (e) when it has none, skips the reorder
without error, leaving the filtered sequence unchanged. -/
theorem C1_remove_disabled_spec (disabled : List Str) (exts : List Extension) :
    (∀ e ∈ remove_disabled disabled exts, e.name ∉ disabled)
    ∧ (remove_disabled disabled exts).Perm (filteredExtensions disabled exts)
    ∧ (remove_disabled disabled exts).filter (fun e => e.name ≠ ctypesName)
        = (filteredExtensions disabled exts).filter (fun e => e.name ≠ ctypesName)
    ∧ ((∃ e ∈ filteredExtensions disabled exts, e.name = ctypesName) →
        ∃ e, (remove_disabled disabled exts).getLast? = some e
          ∧ e.name = ctypesName)
    ∧ ((∀ e ∈ filteredExtensions disabled exts, e.name ≠ ctypesName) →
        remove_disabled disabled exts = filteredExtensions disabled exts) := by
  refine ⟨?_, remove_disabled_perm disabled exts, ?_, ?_, ?_⟩
  · intro e he
    exact mem_filteredExtensions disabled exts e
      ((remove_disabled_perm disabled exts).mem_iff.mp he)
  · cases h : extMapIdx ctypesName (filteredExtensions disabled exts) with
    | none => rw [remove_disabled_of_none disabled exts h]
    | some i =>
      obtain ⟨x, hx, hname⟩ := extMapIdx_some_getElem _ _ i h
      rw [remove_disabled_of_some disabled exts i x h hx]
      exact filter_eraseIdx_append_singleton _ i x _ hx (by simp [hname])
  · intro ⟨e, he, hename⟩
    cases h : extMapIdx ctypesName (filteredExtensions disabled exts) with
    | none =>
      exact absurd hename ((extMapIdx_none_iff _ _).mp h e he)
    | some i =>
      obtain ⟨x, hx, hname⟩ := extMapIdx_some_getElem _ _ i h
      rw [remove_disabled_of_some disabled exts i x h hx]
      exact ⟨x, List.getLast?_concat _, hname⟩
  · intro hall
    exact remove_disabled_of_none disabled exts ((extMapIdx_none_iff _ _).mpr hall)

/-- Witness for C1 at the spec's end-to-end scenario: disabled set
`{"_tkinter"}`, extensions `_socket`, `_tkinter`, `_ctypes`. -/
theorem C1_remove_disabled_spec_witness :
    ∃ e, (remove_disabled [['_', 't', 'k', 'i', 'n', 't', 'e', 'r']]
      [⟨['_', 's', 'o', 'c', 'k', 'e', 't'], []⟩,
       ⟨['_', 't', 'k', 'i', 'n', 't', 'e', 'r'], []⟩,
       ⟨['_', 'c', 't', 'y', 'p', 'e', 's'], []⟩]).getLast? = some e
      ∧ e.name = ctypesName :=
  (C1_remove_disabled_spec _ _).2.2.2.1 (by decide)

/-- **C7**: if the extension names in the input collection are pairwise
distinct, they are still pairwise distinct after `remove_disabled` (the
filter takes a sublist, and the `"_ctypes"` move is a permutation). -/
theorem C7_remove_disabled_nodup (disabled : List Str) (exts : List Extension)
    (h : (exts.map Extension.name).Nodup) :
    ((remove_disabled disabled exts).map Extension.name).Nodup := by
  refine ((remove_disabled_perm disabled exts).map Extension.name).nodup_iff.mpr ?_
  have hsub : (filteredExtensions disabled exts).Sublist exts :=
    List.filter_sublist _
  exact (hsub.map Extension.name).nodup h

/-- Witness for C7 at a concrete three-extension collection. -/
theorem C7_remove_disabled_nodup_witness :
    ((remove_disabled [['f', 'o', 'o']]
      [⟨['a'], []⟩, ⟨['_', 'c', 't', 'y', 'p', 'e', 's'], []⟩,
       ⟨['b'], []⟩]).map Extension.name).Nodup :=
  C7_remove_disabled_nodup _ _ (by decide)

/-! ## Theorems: `set_compiler_flags` -/

/-- **C5**: for every pair of configuration-variable values, the target
variable is written back as the first value, one space, then the second
value — neither side dropped, the empty string included (the equation
holds for all `flags`/`py_flags_nodist`, `[]` among them). -/
theorem C5_set_compiler_flags_concat (store : ConfigStore)
    (cf cpfn flags py_flags_nodist : Str)
    (hf : store cf = some flags) (hp : store cpfn = some py_flags_nodist) :
    ∃ store2, set_compiler_flags store cf cpfn = some store2
      ∧ store2 cf = some (flags ++ ' ' :: py_flags_nodist) := by
  refine ⟨fun name => if name = cf
      then some (flags ++ ' ' :: py_flags_nodist) else store name, ?_, ?_⟩
  · simp only [set_compiler_flags, hf, hp]
  · simp

/-- Witness for C5: target `CF` holds `"-g"`, the no-dist variable is
empty; the result is `"-g "` (trailing space, empty side kept). -/
theorem C5_set_compiler_flags_concat_witness :
    ∃ store2,
      set_compiler_flags
        (fun n => if n = ['C', 'F'] then some ['-', 'g'] else some [])
        ['C', 'F'] ['N', 'D'] = some store2
      ∧ store2 ['C', 'F'] = some (['-', 'g'] ++ ' ' :: []) :=
  C5_set_compiler_flags_concat _ _ _ _ _ rfl rfl

/-- **C10**: `set_compiler_flags` only changes the entry named by its
first argument: every other variable — the no-dist source variable
included — holds the same value after the call as before. -/
theorem C10_set_compiler_flags_frame (store : ConfigStore)
    (cf cpfn : Str) (store2 : ConfigStore) (name : Str)
    (h : set_compiler_flags store cf cpfn = some store2) (hn : name ≠ cf) :
    store2 name = store name := by
  unfold set_compiler_flags at h
  cases hf : store cf with
  | none => rw [hf] at h; exact absurd h (by simp)
  | some flags =>
    cases hp : store cpfn with
    | none => rw [hf, hp] at h; exact absurd h (by simp)
    | some py =>
      rw [hf, hp] at h
      cases h
      simp only [if_neg hn]

/-- Witness for C10: with the store of the C5 witness, the no-dist source
variable `ND` is unchanged by the call. -/
theorem C10_set_compiler_flags_frame_witness :
    (fun name => if name = ['C', 'F']
        then some (['-', 'g'] ++ ' ' :: ([] : Str))
        else (fun n => if n = ['C', 'F'] then some ['-', 'g'] else some []) name)
      ['N', 'D']
      = (fun n => if n = ['C', 'F'] then some ['-', 'g'] else some []) ['N', 'D'] :=
  C10_set_compiler_flags_frame
    (fun n => if n = ['C', 'F'] then some ['-', 'g'] else some [])
    ['C', 'F'] ['N', 'D'] _ ['N', 'D'] rfl (by decide)

/-! ## Theorems: `add_dir_to_list` -/

/-- **C9**: `add_dir_to_list` is idempotent — a second run with the same
arguments leaves the list unchanged, because after the first run the
directory is either already present or is rejected again. -/
theorem C9_add_dir_to_list_idempotent (isdir : Str → Bool)
    (dirlist : List Str) (dir : Option Str) :
    add_dir_to_list isdir (add_dir_to_list isdir dirlist dir) dir
      = add_dir_to_list isdir dirlist dir := by
  cases dir with
  | none => rfl
  | some d =>
    have hmem : ∀ n, d ∈ listInsert dirlist n d := fun n =>
      List.mem_append_right _ (List.mem_cons_self _ _)
    by_cases hc : isdir d = false ∨ d ∈ dirlist
    · have h1 : add_dir_to_list isdir dirlist (some d) = dirlist := by
        simp only [add_dir_to_list]
        rw [if_pos hc]
      rw [h1]
      exact h1
    · simp only [add_dir_to_list]
      rw [if_neg hc]
      cases hf : dirlist.findIdx? (fun path => !(isAbs path)) with
      | some i => rw [if_pos (Or.inr (hmem (i + 1)))]
      | none => rw [if_pos (Or.inr (hmem 0))]

/-! ## Theorems: `macosx_sdk_root` -/

theorem matchIsysrootAt_ne_nil (s tok : Str) (h : matchIsysrootAt s = some tok) :
    tok ≠ [] := by
  simp only [matchIsysrootAt] at h
  split at h
  · split at h
    · exact absurd h (by simp)
    · cases h
      assumption
  · exact absurd h (by simp)

theorem searchIsysroot_ne_nil (s tok : Str) (h : searchIsysroot s = some tok) :
    tok ≠ [] := by
  induction s with
  | nil => simp [searchIsysroot] at h
  | cons c cs ih =>
    simp only [searchIsysroot] at h
    cases hm : matchIsysrootAt (c :: cs) with
    | some t =>
      rw [hm] at h
      cases h
      exact matchIsysrootAt_ne_nil _ _ hm
    | none =>
      rw [hm] at h
      exact ih h

/-- Counterexample to **C3** as stated: with `CFLAGS = "-isysroot /"` and
an empty cache, `CFLAGS` does contain an `-isysroot <path>` token, yet
the code marks `MACOS_SDK_SPECIFIED = False`, because it sets the flag to
`MACOS_SDK_ROOT != '/'`, not unconditionally to true. -/
theorem C3_counterexample :
    (searchIsysroot
        ['-', 'i', 's', 'y', 's', 'r', 'o', 'o', 't', ' ', '/']).isSome = true
    ∧ (macosx_sdk_root
          ⟨['-', 'i', 's', 'y', 's', 'r', 'o', 'o', 't', ' ', '/'], []⟩
          ⟨none, none⟩).2.1.MACOS_SDK_SPECIFIED = some false := by
  decide

/-- **C3** (amended): on a call with no cached root, an `-isysroot <path>`
token in the compiler flags supplies the SDK root without invoking the
compiler, and marks `MACOS_SDK_SPECIFIED` true exactly when the path
differs from `"/"`; only when no token is present is the compiler
invoked, with the SDK marked not explicitly specified. -/
theorem C3_macosx_sdk_root_isysroot (env : SdkEnv) (st : SdkState)
    (hc : truthyStr st.MACOS_SDK_ROOT = false) :
    (∀ tok, searchIsysroot env.CFLAGS = some tok →
      macosx_sdk_root env st
        = (tok, ⟨some tok, some (decide (tok ≠ ['/']))⟩, false))
    ∧ (searchIsysroot env.CFLAGS = none →
      macosx_sdk_root env st
        = (env.default_sysroot, ⟨some env.default_sysroot, some false⟩, true)) := by
  constructor
  · intro tok htok
    simp [macosx_sdk_root, hc, htok]
  · intro hnone
    simp [macosx_sdk_root, hc, hnone]

/-- Witness for the amended C3: `CFLAGS = "-isysroot /sdk"` yields root
`"/sdk"`, an explicitly-specified SDK, and no compiler invocation. -/
theorem C3_macosx_sdk_root_isysroot_witness :
    macosx_sdk_root
        ⟨['-', 'i', 's', 'y', 's', 'r', 'o', 'o', 't', ' ', '/', 's', 'd', 'k'],
         []⟩ ⟨none, none⟩
      = (['/', 's', 'd', 'k'],
         ⟨some ['/', 's', 'd', 'k'],
          some (decide (['/', 's', 'd', 'k'] ≠ ['/']))⟩, false) :=
  (C3_macosx_sdk_root_isysroot
    ⟨['-', 'i', 's', 'y', 's', 'r', 'o', 'o', 't', ' ', '/', 's', 'd', 'k'], []⟩
    ⟨none, none⟩ rfl).1 _ (by decide)

/-- **C4**: memoization — after a first call from the uncached state, a
second call returns the identical value, leaves the globals unchanged,
and does not execute the compiler-probing fallback again.  (The abstract
compiler probe is assumed to report a nonempty root, as
`_osx_support._default_sysroot` always does.) -/
theorem C4_macosx_sdk_root_idempotent (env : SdkEnv)
    (hd : env.default_sysroot ≠ []) :
    macosx_sdk_root env (macosx_sdk_root env ⟨none, none⟩).2.1
      = ((macosx_sdk_root env ⟨none, none⟩).1,
         (macosx_sdk_root env ⟨none, none⟩).2.1, false) := by
  cases hs : searchIsysroot env.CFLAGS with
  | some tok =>
    have hne : tok ≠ [] := searchIsysroot_ne_nil _ _ hs
    have h1 : macosx_sdk_root env ⟨none, none⟩
        = (tok, ⟨some tok, some (decide (tok ≠ ['/']))⟩, false) := by
      simp [macosx_sdk_root, hs, truthyStr]
    rw [h1]
    cases tok with
    | nil => exact absurd rfl hne
    | cons c cs => simp [macosx_sdk_root, truthyStr]
  | none =>
    have h1 : macosx_sdk_root env ⟨none, none⟩
        = (env.default_sysroot,
           ⟨some env.default_sysroot, some false⟩, true) := by
      simp [macosx_sdk_root, hs, truthyStr]
    rw [h1]
    cases hdv : env.default_sysroot with
    | nil => exact absurd hdv hd
    | cons c cs => simp [macosx_sdk_root, truthyStr, hdv]

/-- Witness for C4: empty `CFLAGS`, compiler probe reporting `"/"`. -/
theorem C4_macosx_sdk_root_idempotent_witness :
    macosx_sdk_root ⟨[], ['/']⟩ (macosx_sdk_root ⟨[], ['/']⟩ ⟨none, none⟩).2.1
      = ((macosx_sdk_root ⟨[], ['/']⟩ ⟨none, none⟩).1,
         (macosx_sdk_root ⟨[], ['/']⟩ ⟨none, none⟩).2.1, false) :=
  C4_macosx_sdk_root_idempotent _ (by decide)

/-! ## Theorems: `find_file` -/

theorem find?_append_cons {α : Type} (p : α → Bool) (l1 l2 : List α) (x : α)
    (h1 : ∀ y ∈ l1, p y = false) (hx : p x = true) :
    (l1 ++ x :: l2).find? p = some x := by
  induction l1 with
  | nil => exact List.find?_cons_of_pos _ hx
  | cons a as ih =>
    rw [List.cons_append,
      List.find?_cons_of_neg _ (by simp [h1 a (List.mem_cons_self _ _)])]
    exact ih (fun y hy => h1 y (List.mem_cons_of_mem _ hy))

/-- **C2**: `find_file` returns the empty list when the file exists under
some standard directory (after SDK rewriting), a one-element list naming
the first additional directory containing it when it is found only among
the additional directories, and `None` when it is found in neither
list. -/
theorem C2_find_file_spec (env : FsEnv) (filename : Str)
    (std_dirs paths : List Str) :
    ((∃ dir ∈ std_dirs, env.pathExists (fileProbe env filename dir) = true) →
      find_file env filename std_dirs paths = some [])
    ∧ ((∀ dir ∈ std_dirs, env.pathExists (fileProbe env filename dir) = false) →
      ∀ l1 dir l2, paths = l1 ++ dir :: l2 →
        (∀ d ∈ l1, env.pathExists (fileProbe env filename d) = false) →
        env.pathExists (fileProbe env filename dir) = true →
        find_file env filename std_dirs paths = some [dir])
    ∧ ((∀ dir ∈ std_dirs ++ paths,
          env.pathExists (fileProbe env filename dir) = false) →
      find_file env filename std_dirs paths = none) := by
  refine ⟨?_, ?_, ?_⟩
  · intro ⟨dir, hmem, hex⟩
    simp only [find_file]
    rw [if_pos (List.any_eq_true.mpr ⟨dir, hmem, hex⟩)]
  · intro hstd l1 dir l2 hpaths h1 hdir
    simp only [find_file]
    rw [if_neg (by simp [List.any_eq_false]; intro x hx; simp [hstd x hx]),
      hpaths, find?_append_cons _ l1 l2 dir h1 hdir]
  · intro hall
    have hstd : ∀ dir ∈ std_dirs,
        env.pathExists (fileProbe env filename dir) = false :=
      fun d hd => hall d (List.mem_append_left _ hd)
    have hpaths : ∀ dir ∈ paths,
        env.pathExists (fileProbe env filename dir) = false :=
      fun d hd => hall d (List.mem_append_right _ hd)
    simp only [find_file]
    rw [if_neg (by simp [List.any_eq_false]; intro x hx; simp [hstd x hx]),
      List.find?_eq_none.mpr (by intro x hx; simp [hpaths x hx])]

/-- Witness for C2 at the spec's example: standard dirs
`["/usr/include"]`, additional `["/opt/lib/include"]`, and a filesystem
holding only `/opt/lib/include/foo.h`; the result names the additional
directory. -/
theorem C2_find_file_spec_witness :
    find_file
      ⟨false, [], fun _ => false,
       fun f => f == "/opt/lib/include/foo.h".toList⟩
      "foo.h".toList ["/usr/include".toList] ["/opt/lib/include".toList]
      = some ["/opt/lib/include".toList] :=
  (C2_find_file_spec
      ⟨false, [], fun _ => false,
       fun f => f == "/opt/lib/include/foo.h".toList⟩
      "foo.h".toList ["/usr/include".toList]
      ["/opt/lib/include".toList]).2.1
    (by decide) [] "/opt/lib/include".toList [] rfl (by decide) (by decide)

/-! ## Theorems: the `find_library_file` inverse lookup -/

/-- **C6**: the inverse lookup returns a value — the assertion branch is
unreachable — whenever the resolved path's directory (after
trailing-separator stripping and SDK rewriting of the entries) matches
some entry of the standard or additional lists; when it matches neither,
the routine reaches `assert False` (modelled `none`) instead of
returning a value. -/
theorem C6_find_library_file_assert (env : FsEnv) (result : Str)
    (std_dirs paths : List Str) :
    ((∃ p ∈ std_dirs ++ paths, dirMatches env (dirnameOf result) p = true) →
      (find_library_file_lookup env result std_dirs paths).isSome = true)
    ∧ ((∀ p ∈ std_dirs ++ paths, dirMatches env (dirnameOf result) p = false) →
      find_library_file_lookup env result std_dirs paths = none) := by
  constructor
  · intro ⟨p, hp, hmatch⟩
    simp only [find_library_file_lookup]
    by_cases hstd :
        std_dirs.any (fun q => dirMatches env (dirnameOf result) q) = true
    · rw [if_pos hstd]; rfl
    · rw [if_neg hstd]
      have hpaths : p ∈ paths := by
        rcases List.mem_append.mp hp with h | h
        · exact absurd (List.any_eq_true.mpr ⟨p, h, hmatch⟩) hstd
        · exact h
      obtain ⟨x, hx⟩ := Option.isSome_iff_exists.mp
        (List.find?_isSome.mpr ⟨p, hpaths, hmatch⟩)
      rw [hx]
      rfl
  · intro hall
    simp only [find_library_file_lookup]
    rw [if_neg (by
        simp only [Bool.not_eq_true, List.any_eq_false]
        intro x hx
        simp [hall x (List.mem_append_left _ hx)]),
      List.find?_eq_none.mpr (by
        intro x hx
        simp [hall x (List.mem_append_right _ hx)])]

/-- Witness for C6: the resolved library `/usr/lib/libfoo.a` has its
directory `/usr/lib` in the standard list, so a value is returned. -/
theorem C6_find_library_file_assert_witness :
    (find_library_file_lookup ⟨false, [], fun _ => false, fun _ => false⟩
      "/usr/lib/libfoo.a".toList ["/usr/lib".toList] []).isSome = true :=
  (C6_find_library_file_assert ⟨false, [], fun _ => false, fun _ => false⟩
    "/usr/lib/libfoo.a".toList ["/usr/lib".toList] []).1 (by decide)

/-! ## Theorems: `PyBuildExt.set_srcdir` -/

theorem normpath_isAbs (p : Str) (hp : isAbs p = true) :
    isAbs (normpath p) = true := by
  obtain ⟨t, rfl⟩ : ∃ t, p = '/' :: t := by
    cases p with
    | nil => simp [isAbs] at hp
    | cons c cs =>
      simp only [isAbs, List.head?_cons, decide_eq_true_eq,
        Option.some.injEq] at hp
      exact ⟨cs, by rw [hp]⟩
  obtain ⟨m, hm⟩ : ∃ m, initialSlashes ('/' :: t) = m + 1 := by
    unfold initialSlashes
    rw [if_pos (by simp)]
    by_cases hc : ('/' :: t).take 2 = ['/', '/']
        ∧ ¬ (('/' :: t).take 3 = ['/', '/', '/'])
    · rw [if_pos hc]; exact ⟨1, rfl⟩
    · rw [if_neg hc]; exact ⟨0, rfl⟩
  unfold normpath
  rw [if_neg (by simp), hm, List.replicate_succ, List.cons_append,
    if_neg (by simp)]
  simp [isAbs]

theorem abspath_isAbs (cwd p : Str) (hcwd : isAbs cwd = true) :
    isAbs (abspath cwd p) = true := by
  unfold abspath
  by_cases hp : isAbs p = true
  · rw [if_pos hp]
    exact normpath_isAbs p hp
  · rw [if_neg hp]
    refine normpath_isAbs _ ?_
    obtain ⟨t, rfl⟩ : ∃ t, cwd = '/' :: t := by
      cases cwd with
      | nil => simp [isAbs] at hcwd
      | cons c cs =>
        simp only [isAbs, List.head?_cons, decide_eq_true_eq,
          Option.some.injEq] at hcwd
        exact ⟨cs, by rw [hcwd]⟩
    unfold pathJoin
    rw [if_neg (by simpa [isAbs] using hp)]
    by_cases hend : ('/' :: t : Str) = [] ∨ ('/' :: t).getLast? = some '/'
    · rw [if_pos hend]
      simp [isAbs]
    · rw [if_neg hend]
      simp [isAbs]

/-- **C8**: with the `srcdir` configuration variable unset or empty,
`set_srcdir` raises the fatal error at once and records no usable source
directory (the attribute merely keeps the falsy configuration value);
with it set nonempty, no error is raised and `srcdir` is recorded as an
absolute path (the working directory being absolute). -/
theorem C8_set_srcdir_spec (cwd : Str) (srcdir_var : Option Str)
    (st : BuildState) (hcwd : isAbs cwd = true) :
    ((srcdir_var = none ∨ srcdir_var = some []) →
      (set_srcdir cwd srcdir_var st).1 = some noSrcdirError
      ∧ (set_srcdir cwd srcdir_var st).2.srcdir = srcdir_var)
    ∧ (∀ s, srcdir_var = some s → s ≠ [] →
      (set_srcdir cwd srcdir_var st).1 = none
      ∧ (set_srcdir cwd srcdir_var st).2.srcdir = some (abspath cwd s)
      ∧ isAbs (abspath cwd s) = true) := by
  constructor
  · intro h
    rcases h with rfl | rfl
    · exact ⟨rfl, rfl⟩
    · exact ⟨rfl, rfl⟩
  · intro s hs hne
    subst hs
    have htruthy : truthyStr (some s) = true := by
      cases s with
      | nil => exact absurd rfl hne
      | cons c cs => rfl
    refine ⟨?_, ?_, abspath_isAbs cwd s hcwd⟩
    · simp [set_srcdir, htruthy]
    · simp [set_srcdir, htruthy]

/-- Witness for C8: `srcdir = "sub"` with working directory `/build`
records an absolute path and raises nothing. -/
theorem C8_set_srcdir_spec_witness :
    (set_srcdir "/build".toList (some "sub".toList) ⟨none⟩).1 = none
    ∧ (set_srcdir "/build".toList (some "sub".toList) ⟨none⟩).2.srcdir
        = some (abspath "/build".toList "sub".toList)
    ∧ isAbs (abspath "/build".toList "sub".toList) = true :=
  (C8_set_srcdir_spec "/build".toList (some "sub".toList) ⟨none⟩
    (by decide)).2 "sub".toList rfl (by decide)

end SetupPy
